import Mathlib

/-!
Shallow embedding of the tsauvajon/blockchain ledger core.

The Rust source is embedded as executable Lean definitions:

* machine integers (`u64`) become `Nat` together with explicit
  `checked_add` / `checked_sub` guards bounded by `u64Max`;
* `HashMap<Id, Account>` becomes an association list; `add_account` only
  inserts when the key is vacant and transaction application only updates
  entries in place, so list equality coincides with map equality along every
  execution path used here;
* the blake3 digest is modelled as an injective function of its input: a
  transaction hash is the tuple of the four fields the source feeds to the
  hasher `(record, nonce, from_account_id, created_at)`, and a block hash is
  the sequence of its transactions' digests, mirroring the source's fold of
  fixed-width digests into one hasher;
* `SystemTime` becomes an abstract `Nat` timestamp;
* Rust functions taking `&mut self` and returning `Result<(), Error>` become
  functions returning the updated state paired with `Option Error`, so that
  partial mutation before an error is preserved exactly as in the source.
-/

namespace Ledger

/-- Account identifier: an opaque wrapper over a string (src/id.rs). -/
abbrev Id := String

/-- Amount of tokens: a Rust `u64` (src/account.rs). -/
abbrev Amount := Nat

/-- An error message (src/lib.rs: `type Error = String`). -/
abbrev Error := String

/-- A number only used once (src/lib.rs: `type Nonce = u64`). -/
abbrev Nonce := Nat

/-- The signature of a transaction (src/transaction.rs: `type Signature = String`). -/
abbrev Signature := String

/-- Model of `std::time::SystemTime` as an abstract timestamp. -/
abbrev Timestamp := Nat

/-- The largest value representable in a Rust `u64`. -/
def u64Max : Nat := 2 ^ 64 - 1

/-- Rust `u64::checked_add`: `none` when the sum would exceed `u64::MAX`. -/
def checked_add (a b : Nat) : Option Nat :=
  if a + b ≤ u64Max then some (a + b) else none

/-- Rust `u64::checked_sub`: `none` when the subtraction would underflow. -/
def checked_sub (a b : Nat) : Option Nat :=
  if b ≤ a then some (a - b) else none

/-- An account holds a number of tokens (src/account.rs). -/
structure Account where
  tokens : Amount
deriving DecidableEq, Repr

/-- `Account::new`: a fresh account holds zero tokens. -/
def Account.new : Account := ⟨0⟩

/-- The action a transaction executes against the blockchain
(src/transaction.rs, enum `TransactionRecord`). -/
inductive TransactionRecord where
  | CreateUserAccount (id : Id)
  | SendTokens (to_id : Id) (amount : Amount)
  | MintTokens (to_id : Id) (amount : Amount)
deriving DecidableEq, Repr

/-- A change of state in the blockchain (src/transaction.rs, struct
`Transaction`), with the source's field order. -/
structure Transaction where
  nonce : Nonce
  from_account_id : Option Id
  record : TransactionRecord
  signature : Option Signature
  created_at : Timestamp
deriving DecidableEq, Repr

/-- Model of a blake3 transaction digest: the source hashes the debug
encoding of exactly `(record, nonce, from_account_id, created_at)`, which is
injective on those fields, so the digest is modelled as that tuple. -/
abbrev TxHash := TransactionRecord × Nonce × Option Id × Timestamp

/-- `Transaction::calculate_hash` (src/transaction.rs): digest over
`(record, nonce, from_account_id, created_at)`; `signature` is not fed to
the hasher. -/
def Transaction.calculate_hash (t : Transaction) : TxHash :=
  (t.record, t.nonce, t.from_account_id, t.created_at)

/-- Model of a blake3 block digest: the source folds each transaction's
fixed-width digest into one hasher in sequence order, which is injective on
the sequence of digests, so the block digest is modelled as that sequence. -/
abbrev BlockHash := List TxHash

/-- A block: an ordered batch of transactions, its own hash, and the hash of
the previous block (src/block.rs). -/
structure Block where
  transactions : List Transaction
  hash : Option BlockHash
  previous_hash : Option BlockHash
deriving DecidableEq, Repr

/-- `Block::calculate_hash` (src/block.rs): fold of every contained
transaction's digest, in sequence order. -/
def Block.calculate_hash (b : Block) : BlockHash :=
  b.transactions.map Transaction.calculate_hash

/-- `Block::is_hash_valid` (src/block.rs): `hash` is set and equals a
freshly recomputed `calculate_hash`. -/
def Block.is_hash_valid (b : Block) : Bool :=
  match b.hash with
  | none => false
  | some h => decide (h = b.calculate_hash)

/-- `Block::new` (src/block.rs). -/
def Block.new : Block := ⟨[], none, none⟩

/-- The account map, Rust `HashMap<Id, Account>`, as an association list. -/
abbrev Accounts := List (Id × Account)

/-- `HashMap::get` on the account map. -/
def findAccount (m : Accounts) (id : Id) : Option Account :=
  match m with
  | [] => none
  | (k, a) :: rest => if k = id then some a else findAccount rest id

/-- In-place mutation of an existing entry of the account map (the effect of
writing through `get_mut`). -/
def updateAccount (m : Accounts) (id : Id) (a : Account) : Accounts :=
  m.map fun p => if p.1 = id then (p.1, a) else p

/-- `Entry::Vacant::insert` on the account map: adds a binding for a key that
is not present. -/
def insertAccount (m : Accounts) (id : Id) (a : Account) : Accounts :=
  m ++ [(id, a)]

/-- The state of the blockchain (src/blockchain.rs, struct `Blockchain`). -/
structure Blockchain where
  blocks : List Block
  accounts : Accounts
  pending_transactions : List Transaction
deriving DecidableEq, Repr

/-- `Blockchain::new`. -/
def Blockchain.new : Blockchain := ⟨[], [], []⟩

/-- `Blockchain::is_genesis` (WorldState impl): no block committed yet. -/
def Blockchain.is_genesis (c : Blockchain) : Bool := c.blocks.isEmpty

/-- `Blockchain::get_last_block_hash`: `self.blocks.last()?.hash.clone()`. -/
def Blockchain.get_last_block_hash (c : Blockchain) : Option BlockHash :=
  match c.blocks.getLast? with
  | none => none
  | some b => b.hash

/-- `Blockchain::get_account_by_id` (WorldState impl). -/
def Blockchain.get_account_by_id (c : Blockchain) (id : Id) : Except Error Account :=
  match findAccount c.accounts id with
  | some a => .ok a
  | none => .error "account doesn't exist"

/-- `Blockchain::add_account` (WorldState impl): insert a fresh zero-balance
account when the entry is vacant, otherwise fail. -/
def Blockchain.add_account (c : Blockchain) (id : Id) : Blockchain × Option Error :=
  match findAccount c.accounts id with
  | none => ({ c with accounts := insertAccount c.accounts id Account.new }, none)
  | some _ => (c, some "account already exists")

/-- `Transaction::apply` (src/transaction.rs): execute this transaction
against the blockchain. The state is threaded explicitly; error branches
return the state as mutated so far, exactly as the `&mut` source leaves it
(in particular `SendTokens` keeps the debit when the credit step fails). -/
def Transaction.apply (t : Transaction) (c : Blockchain) : Blockchain × Option Error :=
  match t.record with
  | .CreateUserAccount id =>
    match c.get_account_by_id id with
    | .ok _ => (c, some "account already exists")
    | .error _ => c.add_account id
  | .MintTokens to_id amount =>
    match t.from_account_id with
    | some _ => (c, some "users cannot mint tokens")
    | none =>
      if !c.is_genesis then (c, some "cannot mint tokens after genesis")
      else
        match findAccount c.accounts to_id with
        | none => (c, some "account doesn't exist")
        | some acc =>
          match checked_add acc.tokens amount with
          | none => (c, some "too many tokens")
          | some n => ({ c with accounts := updateAccount c.accounts to_id ⟨n⟩ }, none)
  | .SendTokens to_id amount =>
    match t.from_account_id with
    | none => (c, some "missing from account")
    | some fid =>
      match findAccount c.accounts fid with
      | none => (c, some "from account doesn't exist")
      | some fa =>
        match checked_sub fa.tokens amount with
        | none => (c, some "not enough tokens")
        | some n =>
          let c1 : Blockchain := { c with accounts := updateAccount c.accounts fid ⟨n⟩ }
          match findAccount c1.accounts to_id with
          | none => (c1, some "to account doesn't exist")
          | some ta =>
            match checked_add ta.tokens amount with
            | none => (c1, some "too many tokens")
            | some m => ({ c1 with accounts := updateAccount c1.accounts to_id ⟨m⟩ }, none)

/-- The error string `add_block` builds on a failing transaction:
`format!("err {:?} on transaction {:?}", err, i)`, where the debug encoding
of the error string wraps it in double quotes. -/
def tx_error_message (e : Error) (i : Nat) : Error :=
  "err " ++ "\"" ++ e ++ "\"" ++ " on transaction " ++ toString i

/-- The `for (i, transaction) in block.transactions.iter().enumerate()` loop
body of `add_block`: apply each transaction in order; stop at the first
failure, reporting the state reached, the cause and the index. -/
def apply_transactions (c : Blockchain) (txs : List Transaction) (i : Nat) :
    Except (Blockchain × Error × Nat) Blockchain :=
  match txs with
  | [] => .ok c
  | t :: rest =>
    match t.apply c with
    | (c1, none) => apply_transactions c1 rest (i + 1)
    | (c1, some e) => .error (c1, e, i)

/-- `Blockchain::add_block` (src/blockchain.rs): hash check, genesis bypass,
previous-hash check, then snapshot the account map, apply every transaction,
and on the first failure restore the snapshot and report `(cause, index)`. -/
def Blockchain.add_block (c : Blockchain) (block : Block) : Blockchain × Option Error :=
  if !block.is_hash_valid then (c, some "invalid hash")
  else if c.is_genesis then ({ c with blocks := c.blocks ++ [block] }, none)
  else if block.previous_hash ≠ c.get_last_block_hash then
    (c, some "invalid previous hash")
  else
    match apply_transactions c block.transactions 0 with
    | .ok c1 => ({ c1 with blocks := c1.blocks ++ [block] }, none)
    | .error (c1, e, i) => ({ c1 with accounts := c.accounts }, some (tx_error_message e i))

/-- C4: `is_hash_valid` is true iff `hash` is set and equals a freshly
recomputed `calculate_hash`; a block with `hash = none` is always invalid;
and `add_block` rejects any block whose hash is invalid with the
`invalid hash` error, before any other check, leaving the state unchanged. -/
theorem is_hash_valid_spec :
    (∀ b : Block, b.is_hash_valid = true ↔ b.hash = some b.calculate_hash)
    ∧ (∀ b : Block, b.hash = none → b.is_hash_valid = false)
    ∧ (∀ (c : Blockchain) (b : Block), b.is_hash_valid = false →
        c.add_block b = (c, some "invalid hash")) := by
  refine ⟨?_, ?_, ?_⟩
  · intro b
    unfold Block.is_hash_valid
    cases h : b.hash <;> simp
  · intro b h
    unfold Block.is_hash_valid
    rw [h]
  · intro c b h
    unfold Blockchain.add_block
    rw [h]
    simp

/-- Witness for C4 at concrete inputs: `Block.new` has `hash = none`, is
invalid, and is rejected by `add_block` on the fresh chain with no change. -/
theorem is_hash_valid_spec_witness :
    (Block.new.is_hash_valid = true ↔ Block.new.hash = some Block.new.calculate_hash)
    ∧ Block.new.is_hash_valid = false
    ∧ Blockchain.new.add_block Block.new = (Blockchain.new, some "invalid hash") :=
  ⟨is_hash_valid_spec.1 Block.new,
   is_hash_valid_spec.2.1 Block.new rfl,
   is_hash_valid_spec.2.2 Blockchain.new Block.new (by decide)⟩

/-- C5: a transaction's hash is a pure function of
`(record, nonce, from_account_id, created_at)`: two transactions agreeing on
those four fields hash identically, whatever their signatures. -/
theorem calculate_hash_pure (t1 t2 : Transaction)
    (hr : t1.record = t2.record) (hn : t1.nonce = t2.nonce)
    (hf : t1.from_account_id = t2.from_account_id)
    (hc : t1.created_at = t2.created_at) :
    t1.calculate_hash = t2.calculate_hash := by
  unfold Transaction.calculate_hash
  rw [hr, hn, hf, hc]

/-- Witness for C5: two independently built transactions that differ only in
their signatures hash identically. -/
theorem calculate_hash_pure_witness :
    (Transaction.mk 7 (some "alice") (.SendTokens "bob" 3) none 42).calculate_hash
      = (Transaction.mk 7 (some "alice") (.SendTokens "bob" 3) (some "sig") 42).calculate_hash :=
  calculate_hash_pure _ _ rfl rfl rfl rfl

/-- C2: on an empty chain, `add_block` with an internally valid block appends
it and succeeds without a previous-hash check and without applying its
transactions; starting from the fresh chain, every account balance is zero
afterwards (there are no accounts at all). -/
theorem add_block_genesis (c : Blockchain) (b : Block)
    (hg : c.is_genesis = true) (hv : b.is_hash_valid = true) :
    c.add_block b = ({ c with blocks := c.blocks ++ [b] }, none)
    ∧ ∀ p ∈ (Blockchain.new.add_block b).1.accounts, p.2.tokens = 0 := by
  constructor
  · unfold Blockchain.add_block
    rw [hv, hg]
    simp
  · intro p hp
    unfold Blockchain.add_block at hp
    rw [hv] at hp
    simp [Blockchain.new, Blockchain.is_genesis] at hp

/-- Witness for C2: the fresh chain accepts a first block holding a
`MintTokens` transaction, and every balance is still zero afterwards. -/
theorem add_block_genesis_witness :
    Blockchain.new.add_block
        ⟨[⟨0, none, .MintTokens "alice" 500, none, 0⟩],
         some [(.MintTokens "alice" 500, 0, none, 0)], none⟩
      = ({ Blockchain.new with
            blocks := [⟨[⟨0, none, .MintTokens "alice" 500, none, 0⟩],
                       some [(.MintTokens "alice" 500, 0, none, 0)], none⟩] }, none)
    ∧ ∀ p ∈ (Blockchain.new.add_block
        ⟨[⟨0, none, .MintTokens "alice" 500, none, 0⟩],
         some [(.MintTokens "alice" 500, 0, none, 0)], none⟩).1.accounts,
        p.2.tokens = 0 := by
  have h := add_block_genesis Blockchain.new
    ⟨[⟨0, none, .MintTokens "alice" 500, none, 0⟩],
     some [(.MintTokens "alice" 500, 0, none, 0)], none⟩ (by decide) (by decide)
  exact ⟨h.1, h.2⟩

/-- C3: on a non-empty chain, an internally valid block whose
`previous_hash` differs from the last block's hash is rejected with the
`invalid previous hash` error and the chain is unchanged. -/
theorem add_block_invalid_previous_hash (c : Blockchain) (b : Block)
    (hg : c.is_genesis = false) (hv : b.is_hash_valid = true)
    (hp : b.previous_hash ≠ c.get_last_block_hash) :
    c.add_block b = (c, some "invalid previous hash") := by
  unfold Blockchain.add_block
  rw [hv, hg]
  simp [hp]

/-- Witness for C3: a chain holding one empty block rejects a second,
internally valid block pointing at a wrong previous hash, unchanged. -/
theorem add_block_invalid_previous_hash_witness :
    Blockchain.add_block ⟨[⟨[], some [], none⟩], [], []⟩
        ⟨[], some [], some [(.CreateUserAccount "x", 0, none, 0)]⟩
      = (⟨[⟨[], some [], none⟩], [], []⟩, some "invalid previous hash") :=
  add_block_invalid_previous_hash ⟨[⟨[], some [], none⟩], [], []⟩
    ⟨[], some [], some [(.CreateUserAccount "x", 0, none, 0)]⟩
    (by decide) (by decide) (by decide)

/-- Looking up the key just appended to a map that did not contain it. -/
theorem findAccount_insertAccount (m : Accounts) (id : Id) (a : Account)
    (h : findAccount m id = none) :
    findAccount (insertAccount m id a) id = some a := by
  induction m with
  | nil => simp [insertAccount, findAccount]
  | cons p rest ih =>
    obtain ⟨k, b⟩ := p
    rw [findAccount] at h
    by_cases hk : k = id
    · simp [hk] at h
    · simp only [hk, if_false] at h
      rw [insertAccount, List.cons_append, findAccount]
      simp only [hk, if_false]
      exact ih h

/-- Looking up a present key after mutating it in place. -/
theorem findAccount_updateAccount_self (m : Accounts) (id : Id) (a : Account)
    (h : (findAccount m id).isSome) :
    findAccount (updateAccount m id a) id = some a := by
  induction m with
  | nil => simp [findAccount] at h
  | cons p rest ih =>
    obtain ⟨k, b⟩ := p
    rw [updateAccount, List.map_cons]
    by_cases hk : k = id
    · subst hk
      rw [show (if ((k, b) : Id × Account).1 = k then (((k, b) : Id × Account).1, a) else (k, b))
            = (k, a) from by simp]
      rw [findAccount]
      simp
    · simp only [hk, if_false] at h ⊢
      rw [findAccount] at h
      simp only [hk, if_false] at h
      rw [findAccount]
      simp only [hk, if_false]
      exact ih h

/-- C9: applying `CreateUserAccount id` registers a fresh account holding
exactly zero tokens when `id` is absent, and fails with the
`account already exists` error, mutating nothing, when it is present; the
underlying `add_account` operation behaves the same way. -/
theorem apply_create_user_account (t : Transaction) (c : Blockchain) (id : Id)
    (hr : t.record = .CreateUserAccount id) :
    (findAccount c.accounts id = none →
       t.apply c = ({ c with accounts := insertAccount c.accounts id Account.new }, none)
       ∧ findAccount (t.apply c).1.accounts id = some ⟨0⟩)
    ∧ (∀ a, findAccount c.accounts id = some a →
       t.apply c = (c, some "account already exists"))
    ∧ (findAccount c.accounts id = none →
       c.add_account id = ({ c with accounts := insertAccount c.accounts id Account.new }, none))
    ∧ (∀ a, findAccount c.accounts id = some a →
       c.add_account id = (c, some "account already exists")) := by
  refine ⟨?_, ?_, ?_, ?_⟩
  · intro h
    have happ : t.apply c
        = ({ c with accounts := insertAccount c.accounts id Account.new }, none) := by
      simp [Transaction.apply, hr, Blockchain.get_account_by_id, Blockchain.add_account, h]
    refine ⟨happ, ?_⟩
    rw [happ]
    exact findAccount_insertAccount c.accounts id Account.new h
  · intro a h
    simp [Transaction.apply, hr, Blockchain.get_account_by_id, h]
  · intro h
    simp [Blockchain.add_account, h]
  · intro a h
    simp [Blockchain.add_account, h]

/-- Witness for C9 on concrete inputs: creating `"world"` on a chain that
only knows `"someone"` inserts a fresh zero-balance account, and creating
`"someone"` again fails without any change. -/
theorem apply_create_user_account_witness :
    ((⟨0, none, .CreateUserAccount "world", none, 0⟩ : Transaction).apply
        ⟨[], [("someone", ⟨5⟩)], []⟩
      = (⟨[], [("someone", ⟨5⟩), ("world", ⟨0⟩)], []⟩, none))
    ∧ ((⟨0, none, .CreateUserAccount "someone", none, 0⟩ : Transaction).apply
        ⟨[], [("someone", ⟨5⟩)], []⟩
      = (⟨[], [("someone", ⟨5⟩)], []⟩, some "account already exists")) := by
  constructor
  · exact ((apply_create_user_account ⟨0, none, .CreateUserAccount "world", none, 0⟩
      ⟨[], [("someone", ⟨5⟩)], []⟩ "world" rfl).1 (by decide)).1
  · exact (apply_create_user_account ⟨0, none, .CreateUserAccount "someone", none, 0⟩
      ⟨[], [("someone", ⟨5⟩)], []⟩ "someone" rfl).2.1 ⟨5⟩ (by decide)

/-- C6: a `SendTokens` whose amount exceeds the sender's balance fails with
the `not enough tokens` error leaving every account unchanged, and a
`MintTokens` whose amount would overflow the recipient's `u64` balance fails
with the `too many tokens` error leaving every account unchanged. -/
theorem apply_arith_guards (t : Transaction) (c : Blockchain) :
    (∀ tid amt fid fa, t.record = .SendTokens tid amt →
       t.from_account_id = some fid →
       findAccount c.accounts fid = some fa → fa.tokens < amt →
       t.apply c = (c, some "not enough tokens"))
    ∧ (∀ tid amt ta, t.record = .MintTokens tid amt →
       t.from_account_id = none → c.is_genesis = true →
       findAccount c.accounts tid = some ta → u64Max < ta.tokens + amt →
       t.apply c = (c, some "too many tokens")) := by
  constructor
  · intro tid amt fid fa hr hf hacc hlt
    have hns : ¬ (amt ≤ fa.tokens) := Nat.not_le.mpr hlt
    simp [Transaction.apply, hr, hf, hacc, checked_sub, hns]
  · intro tid amt ta hr hf hg hacc hov
    have hno : ¬ (ta.tokens + amt ≤ u64Max) := Nat.not_le.mpr hov
    simp [Transaction.apply, hr, hf, hg, hacc, checked_add, hno]

/-- Witness for C6: sending 10 from a balance of 3 fails with
`not enough tokens`; minting 2 to a balance of `u64::MAX` fails with
`too many tokens`; both leave the chain exactly as it was. -/
theorem apply_arith_guards_witness :
    ((⟨0, some "a", .SendTokens "b" 10, none, 0⟩ : Transaction).apply
        ⟨[], [("a", ⟨3⟩), ("b", ⟨0⟩)], []⟩
      = (⟨[], [("a", ⟨3⟩), ("b", ⟨0⟩)], []⟩, some "not enough tokens"))
    ∧ ((⟨0, none, .MintTokens "a" 2, none, 0⟩ : Transaction).apply
        ⟨[], [("a", ⟨u64Max⟩)], []⟩
      = (⟨[], [("a", ⟨u64Max⟩)], []⟩, some "too many tokens")) := by
  constructor
  · exact (apply_arith_guards ⟨0, some "a", .SendTokens "b" 10, none, 0⟩
      ⟨[], [("a", ⟨3⟩), ("b", ⟨0⟩)], []⟩).1 "b" 10 "a" ⟨3⟩ rfl rfl (by decide) (by decide)
  · exact (apply_arith_guards ⟨0, none, .MintTokens "a" 2, none, 0⟩
      ⟨[], [("a", ⟨u64Max⟩)], []⟩).2 "a" 2 ⟨u64Max⟩ rfl rfl (by decide) (by decide)
      (by show u64Max < u64Max + 2; omega)

/-- C8: `MintTokens` fails with `users cannot mint tokens` whenever a sender
is set, with `cannot mint tokens after genesis` whenever a block has been
committed, with `account doesn't exist` when the recipient is missing, and
otherwise credits the recipient through overflow-checked addition; and the
chain is in genesis exactly when its block list is empty. -/
theorem apply_mint_semantics (t : Transaction) (c : Blockchain) (tid : Id) (amt : Amount)
    (hr : t.record = .MintTokens tid amt) :
    (∀ x, t.from_account_id = some x →
        t.apply c = (c, some "users cannot mint tokens"))
    ∧ (t.from_account_id = none → c.is_genesis = false →
        t.apply c = (c, some "cannot mint tokens after genesis"))
    ∧ (t.from_account_id = none → c.is_genesis = true →
        findAccount c.accounts tid = none →
        t.apply c = (c, some "account doesn't exist"))
    ∧ (∀ ta n, t.from_account_id = none → c.is_genesis = true →
        findAccount c.accounts tid = some ta → checked_add ta.tokens amt = some n →
        t.apply c = ({ c with accounts := updateAccount c.accounts tid ⟨n⟩ }, none))
    ∧ (c.is_genesis = true ↔ c.blocks = []) := by
  refine ⟨?_, ?_, ?_, ?_, ?_⟩
  · intro x hf
    simp [Transaction.apply, hr, hf]
  · intro hf hg
    simp [Transaction.apply, hr, hf, hg]
  · intro hf hg hacc
    simp [Transaction.apply, hr, hf, hg, hacc]
  · intro ta n hf hg hacc hadd
    simp [Transaction.apply, hr, hf, hg, hacc, hadd]
  · simp [Blockchain.is_genesis, List.isEmpty_iff]

/-- Witness for C8 on concrete inputs: each mint branch observed on a small
chain, plus the genesis characterisation on the fresh chain. -/
theorem apply_mint_semantics_witness :
    ((⟨0, some "a", .MintTokens "a" 1, none, 0⟩ : Transaction).apply
        ⟨[], [("a", ⟨0⟩)], []⟩
      = (⟨[], [("a", ⟨0⟩)], []⟩, some "users cannot mint tokens"))
    ∧ ((⟨0, none, .MintTokens "a" 1, none, 0⟩ : Transaction).apply
        ⟨[⟨[], some [], none⟩], [("a", ⟨0⟩)], []⟩
      = (⟨[⟨[], some [], none⟩], [("a", ⟨0⟩)], []⟩, some "cannot mint tokens after genesis"))
    ∧ ((⟨0, none, .MintTokens "ghost" 1, none, 0⟩ : Transaction).apply
        ⟨[], [("a", ⟨0⟩)], []⟩
      = (⟨[], [("a", ⟨0⟩)], []⟩, some "account doesn't exist"))
    ∧ ((⟨0, none, .MintTokens "a" 200, none, 0⟩ : Transaction).apply
        ⟨[], [("a", ⟨0⟩)], []⟩
      = (⟨[], [("a", ⟨200⟩)], []⟩, none))
    ∧ ((Blockchain.new).is_genesis = true ↔ (Blockchain.new).blocks = []) := by
  refine ⟨?_, ?_, ?_, ?_, ?_⟩
  · exact (apply_mint_semantics ⟨0, some "a", .MintTokens "a" 1, none, 0⟩
      ⟨[], [("a", ⟨0⟩)], []⟩ "a" 1 rfl).1 "a" rfl
  · exact (apply_mint_semantics ⟨0, none, .MintTokens "a" 1, none, 0⟩
      ⟨[⟨[], some [], none⟩], [("a", ⟨0⟩)], []⟩ "a" 1 rfl).2.1 rfl (by decide)
  · exact (apply_mint_semantics ⟨0, none, .MintTokens "ghost" 1, none, 0⟩
      ⟨[], [("a", ⟨0⟩)], []⟩ "ghost" 1 rfl).2.2.1 rfl (by decide) (by decide)
  · exact (apply_mint_semantics ⟨0, none, .MintTokens "a" 200, none, 0⟩
      ⟨[], [("a", ⟨0⟩)], []⟩ "a" 200 rfl).2.2.2.1 ⟨0⟩ 200 rfl (by decide) (by decide)
      (by decide)
  · exact (apply_mint_semantics ⟨0, none, .MintTokens "a" 1, none, 0⟩
      Blockchain.new "a" 1 rfl).2.2.2.2

/-- C7: in `SendTokens` the debit strictly precedes the credit: when the
debit succeeds and the credit step then fails (recipient missing, or its
balance would overflow), `apply` returns an error on the debited state —
the sender's balance has already been reduced by the amount, and `apply`
itself does not undo it. -/
theorem apply_send_partial_debit (t : Transaction) (c : Blockchain)
    (tid fid : Id) (amt : Amount) (fa : Account) (n : Nat)
    (hr : t.record = .SendTokens tid amt)
    (hf : t.from_account_id = some fid)
    (hacc : findAccount c.accounts fid = some fa)
    (hdebit : checked_sub fa.tokens amt = some n)
    (hfail : findAccount (updateAccount c.accounts fid ⟨n⟩) tid = none
      ∨ ∃ ta, findAccount (updateAccount c.accounts fid ⟨n⟩) tid = some ta
           ∧ checked_add ta.tokens amt = none) :
    (∃ e, t.apply c = ({ c with accounts := updateAccount c.accounts fid ⟨n⟩ }, some e))
    ∧ findAccount (t.apply c).1.accounts fid = some ⟨fa.tokens - amt⟩ := by
  have hn : n = fa.tokens - amt := by
    unfold checked_sub at hdebit
    by_cases hle : amt ≤ fa.tokens
    · simp [hle] at hdebit
      omega
    · simp [hle] at hdebit
  have hupd : findAccount (updateAccount c.accounts fid ⟨n⟩) fid = some ⟨n⟩ := by
    apply findAccount_updateAccount_self
    rw [hacc]
    rfl
  rcases hfail with hnone | ⟨ta, hta, hadd⟩
  · have happ : t.apply c
        = ({ c with accounts := updateAccount c.accounts fid ⟨n⟩ },
           some "to account doesn't exist") := by
      simp [Transaction.apply, hr, hf, hacc, hdebit, hnone]
    refine ⟨⟨"to account doesn't exist", happ⟩, ?_⟩
    rw [happ, hn] at *
    exact hupd
  · have happ : t.apply c
        = ({ c with accounts := updateAccount c.accounts fid ⟨n⟩ },
           some "too many tokens") := by
      simp [Transaction.apply, hr, hf, hacc, hdebit, hta, hadd]
    refine ⟨⟨"too many tokens", happ⟩, ?_⟩
    rw [happ, hn] at *
    exact hupd

/-- Witness for C7: sending 5 from `"a"` (balance 5) to `"b"` (balance
`u64::MAX`) fails on the credit overflow while the debit of `"a"` is kept. -/
theorem apply_send_partial_debit_witness :
    (∃ e, (⟨0, some "a", .SendTokens "b" 5, none, 0⟩ : Transaction).apply
        ⟨[], [("a", ⟨5⟩), ("b", ⟨u64Max⟩)], []⟩
      = (⟨[], [("a", ⟨0⟩), ("b", ⟨u64Max⟩)], []⟩, some e))
    ∧ findAccount ((⟨0, some "a", .SendTokens "b" 5, none, 0⟩ : Transaction).apply
        ⟨[], [("a", ⟨5⟩), ("b", ⟨u64Max⟩)], []⟩).1.accounts "a" = some ⟨0⟩ := by
  have h := apply_send_partial_debit ⟨0, some "a", .SendTokens "b" 5, none, 0⟩
    ⟨[], [("a", ⟨5⟩), ("b", ⟨u64Max⟩)], []⟩ "b" "a" 5 ⟨5⟩ 0 rfl rfl (by decide)
    (by decide) (Or.inr ⟨⟨u64Max⟩, by decide, by decide⟩)
  obtain ⟨⟨e, he⟩, hbal⟩ := h
  exact ⟨⟨e, he⟩, hbal⟩

/-- C1: on a non-genesis block that passes the hash and previous-hash
checks, if the transaction loop fails with cause `e` at index `i`, then
`add_block` hands back the account map exactly as it was before the block
was processed and reports an error naming the index and the cause. -/
theorem add_block_rollback (c : Blockchain) (b : Block) (cm : Blockchain)
    (e : Error) (i : Nat)
    (hg : c.is_genesis = false) (hv : b.is_hash_valid = true)
    (hp : b.previous_hash = c.get_last_block_hash)
    (hfail : apply_transactions c b.transactions 0 = .error (cm, e, i)) :
    (c.add_block b).1.accounts = c.accounts
    ∧ (c.add_block b).2 = some (tx_error_message e i) := by
  unfold Blockchain.add_block
  rw [hv, hg]
  simp [hp, hfail]

/-- Witness for C1: a one-block chain receives a linked, internally valid
block whose only transaction fails (`SendTokens` without a sender); the
account map is unchanged and the error names index 0 and the cause. -/
theorem add_block_rollback_witness :
    (Blockchain.add_block ⟨[⟨[], some [], none⟩], [("a", ⟨1⟩)], []⟩
        ⟨[⟨0, none, .SendTokens "b" 1, none, 0⟩],
         some [(.SendTokens "b" 1, 0, none, 0)], some []⟩).1.accounts
      = [("a", ⟨1⟩)]
    ∧ (Blockchain.add_block ⟨[⟨[], some [], none⟩], [("a", ⟨1⟩)], []⟩
        ⟨[⟨0, none, .SendTokens "b" 1, none, 0⟩],
         some [(.SendTokens "b" 1, 0, none, 0)], some []⟩).2
      = some (tx_error_message "missing from account" 0) :=
  add_block_rollback ⟨[⟨[], some [], none⟩], [("a", ⟨1⟩)], []⟩
    ⟨[⟨0, none, .SendTokens "b" 1, none, 0⟩],
     some [(.SendTokens "b" 1, 0, none, 0)], some []⟩
    ⟨[⟨[], some [], none⟩], [("a", ⟨1⟩)], []⟩ "missing from account" 0
    (by decide) (by decide) (by decide) rfl

/-- A single `Transaction::apply` only ever touches the account map: the
block list and the pending pool come out unchanged. -/
theorem apply_frame (t : Transaction) (c : Blockchain) :
    (t.apply c).1.blocks = c.blocks
    ∧ (t.apply c).1.pending_transactions = c.pending_transactions := by
  obtain ⟨n, f, r, s, ca⟩ := t
  cases r <;>
    simp only [Transaction.apply, Blockchain.add_account] <;>
    (repeat' split) <;>
    exact ⟨rfl, rfl⟩

/-- The transaction loop of `add_block` only ever touches the account map,
whether it succeeds or stops at a failure. -/
theorem apply_transactions_frame (txs : List Transaction) :
    ∀ (c : Blockchain) (i : Nat),
      (∀ c1, apply_transactions c txs i = .ok c1 →
        c1.blocks = c.blocks ∧ c1.pending_transactions = c.pending_transactions)
      ∧ (∀ c1 e j, apply_transactions c txs i = .error (c1, e, j) →
        c1.blocks = c.blocks ∧ c1.pending_transactions = c.pending_transactions) := by
  induction txs with
  | nil =>
    intro c i
    constructor
    · intro c1 h
      rw [apply_transactions] at h
      cases h
      exact ⟨rfl, rfl⟩
    · intro c1 e j h
      rw [apply_transactions] at h
      cases h
  | cons t rest ih =>
    intro c i
    have hf := apply_frame t c
    constructor
    · intro c1 h
      rw [apply_transactions] at h
      cases happ : t.apply c with
      | mk c2 oe =>
        rw [happ] at h hf
        cases oe with
        | none =>
          have h2 := (ih c2 (i + 1)).1 c1 h
          exact ⟨h2.1.trans hf.1, h2.2.trans hf.2⟩
        | some e => cases h
    · intro c1 e j h
      rw [apply_transactions] at h
      cases happ : t.apply c with
      | mk c2 oe =>
        rw [happ] at h hf
        cases oe with
        | none =>
          have h2 := (ih c2 (i + 1)).2 c1 e j h
          exact ⟨h2.1.trans hf.1, h2.2.trans hf.2⟩
        | some e2 =>
          cases h
          exact hf

/-- C10: whenever `add_block` returns an error — invalid hash, invalid
previous hash, or a failing transaction — the resulting blockchain equals
the original one in every field: no block is appended, the account map is
restored, and the pending pool is untouched. -/
theorem add_block_error_noop (c : Blockchain) (b : Block) (e : Error)
    (h : (c.add_block b).2 = some e) :
    (c.add_block b).1 = c := by
  unfold Blockchain.add_block at h ⊢
  by_cases hv : b.is_hash_valid = true
  · rw [hv] at h ⊢
    simp only [Bool.not_true, Bool.false_eq_true, if_false] at h ⊢
    by_cases hg : c.is_genesis = true
    · rw [if_pos hg] at h
      cases h
    · rw [if_neg hg] at h ⊢
      by_cases hp : b.previous_hash = c.get_last_block_hash
      · rw [if_neg (by simpa using hp)] at h ⊢
        cases hloop : apply_transactions c b.transactions 0 with
        | ok c1 =>
          rw [hloop] at h
          exact Option.noConfusion h
        | error x =>
          obtain ⟨c1, e1, i1⟩ := x
          have hfr := (apply_transactions_frame b.transactions c 0).2 c1 e1 i1 hloop
          obtain ⟨cb, ca, cp⟩ := c
          obtain ⟨c1b, c1a, c1p⟩ := c1
          simp only at hfr
          simp [hfr.1, hfr.2]
      · rw [if_pos (by simpa using hp)] at h ⊢
  · have hv2 : (!b.is_hash_valid) = true := by
      simp only [Bool.not_eq_true] at hv ⊢
      simp [hv]
    rw [if_pos hv2]

/-- Witness for C10: the fresh chain rejects the hashless `Block::new` and
is left exactly as it was. -/
theorem add_block_error_noop_witness :
    (Blockchain.new.add_block Block.new).2 = some "invalid hash"
    ∧ (Blockchain.new.add_block Block.new).1 = Blockchain.new :=
  ⟨by decide, add_block_error_noop Blockchain.new Block.new "invalid hash" (by decide)⟩

end Ledger
